import Mathlib

/-!
Shallow embedding of `litebo/utils/history_container.py` (lite-bo).

Configurations are opaque hashable keys produced by an external search-space
component; they are modelled as `Nat`.  Performance values are compared with
the usual order; they are modelled as `Int`.  Python `OrderedDict`s are
modelled as association lists in insertion order.  Methods that can raise a
Python exception are embedded as `Except PyErr`.
-/

/-- Opaque configuration key (external collaborator, identity by value). -/
abbrev Config := Nat

/-- Python exceptions that the embedded methods can raise. -/
inductive PyErr where
  | keyError
  | nameError
  | attrError
  | assertionError
  deriving Repr, DecidableEq

/-- MAXINT from `litebo.utils.constants` (module not under the sources);
modelled from the spec as a large integer constant.  No claim below depends
on its value: it is only the initial `incumbent_value` sentinel. -/
def MAXINT : Int := 2147483647

/-- Membership test `config in self.data` on an ordered dict. -/
def hasConfig (d : List (Config × α)) (c : Config) : Bool :=
  d.any (fun e => e.1 = c)

/-- State of `HistoryContainer` (single-objective). -/
structure HistoryState where
  data : List (Config × Int)
  config_counter : Nat
  incumbent_value : Int
  incumbents : List (Config × Int)
  deriving Repr, DecidableEq

/-- `HistoryContainer.__init__`. -/
def histInit : HistoryState :=
  { data := [], config_counter := 0, incumbent_value := MAXINT, incumbents := [] }

/-- `HistoryContainer.add(config, perf)`, line by line: duplicate check
(warn and return), insert into `data`, bump the counter, then the incumbent
update (`clear` on a strict improvement, `append` on less-or-equal,
first-insertion branch when `incumbents` is empty). -/
def add (s : HistoryState) (config : Config) (perf : Int) : HistoryState :=
  if hasConfig s.data config then s
  else
    let data' := s.data ++ [(config, perf)]
    let cc := s.config_counter + 1
    if s.incumbents.length > 0 then
      let incs1 := if perf < s.incumbent_value then [] else s.incumbents
      if perf ≤ s.incumbent_value then
        { data := data', config_counter := cc,
          incumbent_value := perf, incumbents := incs1 ++ [(config, perf)] }
      else
        { data := data', config_counter := cc,
          incumbent_value := s.incumbent_value, incumbents := incs1 }
    else
      { data := data', config_counter := cc,
        incumbent_value := perf, incumbents := [(config, perf)] }

/-- `HistoryContainer.get_perf(config)`: dict lookup, `KeyError` if absent. -/
def get_perf (s : HistoryState) (config : Config) : Except PyErr Int :=
  match s.data.find? (fun e => e.1 = config) with
  | some e => .ok e.2
  | none => .error .keyError

/-- Run a sequence of `add` calls on a fresh single-objective history. -/
def run (ops : List (Config × Int)) : HistoryState :=
  ops.foldl (fun s op => add s op.1 op.2) histInit

/-- `save_json`: the serialized file content, a list of
`(config-encoding, float(perf))` pairs in insertion order.  The external
configuration-space collaborator's `get_dictionary` encoding is modelled as
the identity on the opaque keys. -/
def save_json (s : HistoryState) : List (Config × Int) :=
  s.data

/-- Assignment `d[config] = v` on an ordered dict: an existing key keeps its
position and gets the new value, a new key is appended. -/
def dictInsert (d : List (Config × Int)) (c : Config) (v : Int) : List (Config × Int) :=
  if hasConfig d c then d.map (fun e => if e.1 = c then (c, v) else e)
  else d ++ [(c, v)]

/-- `HistoryContainer.load_history_from_json`: the file is `none` when
opening or JSON-parsing raises (the method catches the exception, warns and
returns `None`), otherwise the decoded `"data"` list.  The method builds a
local `_history_data` ordered dict from the decoded pairs and returns it; it
never writes to `self`, so the history state is returned unchanged. -/
def load_history_from_json (s : HistoryState) (file : Option (List (Config × Int))) :
    HistoryState × Option (List (Config × Int)) :=
  match file with
  | none => (s, none)
  | some content => (s, some (content.foldl (fun d e => dictInsert d e.1 e.2) []))

/-- Per-objective incumbent entry `(config, perf[i], perf)` as appended by
`MOHistoryContainer.add`. -/
abbrev MOInc := Config × Int × List Int

/-- State of `MOHistoryContainer`.  `mo_incumbents` in the source is built
as `[list()] * num_objs`, i.e. `num_objs` references to ONE shared list
object, which is only ever mutated in place (`clear` / `append`) and never
rebound; the shared list is therefore a single state component, and the
attribute `mo_incumbents` is `num_objs` copies of it (see
`get_mo_incumbents`). -/
structure MOState where
  data : List (Config × List Int)
  config_counter : Nat
  pareto : List (Config × List Int)
  num_objs : Option Nat
  mo_incumbent_value : List Int
  moIncShared : List MOInc
  ref_point : Option (List Int)
  hv_data : List Int
  deriving Repr, DecidableEq

/-- `MOHistoryContainer.__init__(task_id, ref_point=None)`. -/
def moInit (ref_point : Option (List Int) := none) : MOState :=
  { data := [], config_counter := 0, pareto := [], num_objs := none,
    mo_incumbent_value := [], moIncShared := [], ref_point := ref_point,
    hv_data := [] }

/-- `all(pp <= p for pp, p in zip(a, b))`: component-wise `<=` over the zip
of the two vectors (the zip truncates to the shorter one, as in Python). -/
def domLe : List Int → List Int → Bool
  | _, [] => true
  | [], _ => true
  | x :: xs, y :: ys => decide (x ≤ y) && domLe xs ys

/-- The `for ... else` scan over the current Pareto dict in
`MOHistoryContainer.add`: returns whether the loop hit `break` (an existing
entry dominates the new vector) together with `remove_config`, the keys of
the entries the new vector dominates that were visited before any break. -/
def paretoScan (perf : List Int) : List (Config × List Int) → Bool × List Config
  | [] => (false, [])
  | e :: rest =>
    if domLe e.2 perf then (true, [])
    else if domLe perf e.2 then
      let r := paretoScan perf rest
      (r.1, e.1 :: r.2)
    else paretoScan perf rest

/-- Pareto dict after the scan: the new pair is appended when the loop ran
to completion (`for`/`else`), then every key collected in `remove_config`
is popped. -/
def paretoUpdate (pareto : List (Config × List Int)) (config : Config)
    (perf : List Int) : List (Config × List Int) :=
  let scan := paretoScan perf pareto
  let pareto1 := if scan.1 then pareto else pareto ++ [(config, perf)]
  pareto1.filter (fun e => ! scan.2.contains e.1)

/-- The `for i in range(num_objs)` incumbent-update loop of
`MOHistoryContainer.add`, acting on the one shared incumbent list and the
`mo_incumbent_value` vector (`perf[i]` is `perf.getD i 0`; the index is in
range because the objective-count assertion has already passed). -/
def moIncLoop (config : Config) (perf : List Int) (n : Nat)
    (st : List MOInc × List Int) : List MOInc × List Int :=
  (List.range n).foldl
    (fun st i =>
      let L := st.1
      let vs := st.2
      let p := perf.getD i 0
      let v := vs.getD i 0
      if L.length > 0 then
        let L1 := if p < v then [] else L
        if p ≤ v then (L1 ++ [(config, p, perf)], vs.set i p)
        else (L1, vs)
      else (L ++ [(config, p, perf)], vs.set i p))
    st

/-- Hypervolume of a point set w.r.t. a reference point; modelled from the
spec as an external black box (`litebo.utils.multi_objective.Hypervolume`
is not among the sources and no claim depends on its value). -/
def hvCompute (_ref : List Int) (_front : List (List Int)) : Int :=
  0

/-- `MOHistoryContainer.get_pareto_front()`. -/
def get_pareto_front (s : MOState) : List (List Int) :=
  s.pareto.map (fun e => e.2)

/-- Successful-insertion path of `MOHistoryContainer.add` (after the
objective-count assertion passed and the duplicate check failed): insertion
into `data`, the counter bump, the Pareto `for`/`else` update, the
per-objective incumbent loop, and the hypervolume trace when a reference
point is configured. -/
def moAddCore (s1 : MOState) (config : Config) (perf : List Int) : MOState :=
  let n := perf.length
  let data' := s1.data ++ [(config, perf)]
  let pareto' := paretoUpdate s1.pareto config perf
  let inc := moIncLoop config perf n (s1.moIncShared, s1.mo_incumbent_value)
  let s2 := { s1 with data := data', config_counter := s1.config_counter + 1,
                      pareto := pareto', moIncShared := inc.1,
                      mo_incumbent_value := inc.2 }
  match s2.ref_point with
  | none => s2
  | some r =>
    let front := get_pareto_front s2
    let hv := if front.isEmpty then 0 else hvCompute r front
    { s2 with hv_data := s2.hv_data ++ [hv] }

/-- First-call branch of `MOHistoryContainer.add`: fix `num_objs`, set
`mo_incumbent_value` to `[MAXINT] * num_objs` and build `[list()] *
num_objs` — `num_objs` aliases of one empty list. -/
def moFirstInit (s : MOState) (perf : List Int) : MOState :=
  { s with num_objs := some perf.length,
           mo_incumbent_value := List.replicate perf.length MAXINT,
           moIncShared := [] }

/-- `MOHistoryContainer.add(config, perf)`: first-call initialization of
`num_objs`, `mo_incumbent_value` and the aliased `mo_incumbents` lists; the
objective-count `assert` (an `AssertionError` when it fails, before the
duplicate check); the duplicate warn-and-return; then the successful
insertion path `moAddCore`. -/
def moAdd (s : MOState) (config : Config) (perf : List Int) : Except PyErr MOState :=
  let s1 := if s.num_objs = none then moFirstInit s perf else s
  if s1.num_objs ≠ some perf.length then .error .assertionError
  else if hasConfig s1.data config then .ok s1
  else .ok (moAddCore s1 config perf)

/-- `self.mo_incumbents` as observed through `get_mo_incumbents()`:
`num_objs` references to the single shared list. -/
def get_mo_incumbents (s : MOState) : List (List MOInc) :=
  List.replicate ((s.num_objs).getD 0) s.moIncShared

/-- One `add` call in a call sequence: when the call raises (only the
objective-count assertion can, and only before any mutation) the state is
left as it was. -/
def moStep (s : MOState) (op : Config × List Int) : MOState :=
  match moAdd s op.1 op.2 with
  | .ok s' => s'
  | .error _ => s

/-- Run a sequence of `add` calls on a fresh multi-objective history. -/
def moRun (ops : List (Config × List Int)) : MOState :=
  ops.foldl moStep (moInit)

/-- State of `MultiStartHistoryContainer`.  `self.current` is always the
last element of `history_containers` (`restart` appends the container it
assigns to `current` and nothing else rebinds it), so only the list is
stored.  Only single-objective inner containers can ever exist: the
multi-objective branch of `restart` raises before constructing one (see
`msRestart`). -/
structure MSState where
  task_id : Nat
  num_objs : Nat
  history_containers : List HistoryState
  deriving Repr, DecidableEq

/-- `MultiStartHistoryContainer.restart()`: with one objective it appends a
fresh `HistoryContainer` and makes it current; otherwise it evaluates
`MOHistoryContainer(self.task_id, ref_point)` where `ref_point` is an
unbound name (`__init__` never stores its `ref_point` parameter and no
global of that name exists), so the call raises `NameError`. -/
def msRestart (ms : MSState) : Except PyErr MSState :=
  if ms.num_objs = 1 then
    .ok { ms with history_containers := ms.history_containers ++ [histInit] }
  else .error .nameError

/-- `MultiStartHistoryContainer.__init__(task_id, num_objs=1)`: stores the
ids and calls `restart()` (which raises for `num_objs != 1`). -/
def msInit (task_id : Nat) (num_objs : Nat) : Except PyErr MSState :=
  msRestart { task_id := task_id, num_objs := num_objs, history_containers := [] }

/-- Apply a function to the last element of a list (the current inner
container). -/
def modifyLast (f : α → α) : List α → List α
  | [] => []
  | [a] => [f a]
  | a :: rest => a :: modifyLast f rest

/-- `MultiStartHistoryContainer.add`: delegates to the current (= last
appended) inner history. -/
def msAdd (ms : MSState) (config : Config) (perf : Int) : MSState :=
  { ms with history_containers :=
      modifyLast (fun h => add h config perf) ms.history_containers }

/-- One step of the single-objective aggregation loop in
`get_incumbents_for_all_restarts`: `best_incumbent_value` starts at
`float('inf')`, modelled as `none`.  A strictly worse restart is skipped
(`continue`), a strictly better one lowers the best value, and in both
remaining cases the restart's incumbents are extended onto the accumulator
— which is never cleared. -/
def aggStep (acc : List (Config × Int) × Option Int) (hc : HistoryState) :
    List (Config × Int) × Option Int :=
  match acc.2 with
  | none => (acc.1 ++ hc.incumbents, some hc.incumbent_value)
  | some bv =>
    if hc.incumbent_value > bv then acc
    else if hc.incumbent_value < bv then
      (acc.1 ++ hc.incumbents, some hc.incumbent_value)
    else (acc.1 ++ hc.incumbents, some bv)

/-- `MultiStartHistoryContainer.get_incumbents_for_all_restarts()`: the
single-objective fold above; the multi-objective branch calls
`get_pareto_front`, which evaluates the unimported name `np` and raises
`NameError` (unreachable anyway, since no multi-objective instance can be
constructed). -/
def get_incumbents_for_all_restarts (ms : MSState) :
    Except PyErr (List (Config × Int)) :=
  if ms.num_objs = 1 then
    .ok (ms.history_containers.foldl aggStep ([], none)).1
  else .error .nameError

/-- `MultiStartHistoryContainer.get_perf(config)`: scans the inner
containers; on the first one containing the key it evaluates
`self.data[config]`, but `MultiStartHistoryContainer` has no attribute
`data`, so that raises `AttributeError`; if no inner container has the key
it raises `KeyError`. -/
def msGetPerf (ms : MSState) (config : Config) : Except PyErr Int :=
  match ms.history_containers.find? (fun hc => hasConfig hc.data config) with
  | some _ => .error .attrError
  | none => .error .keyError

/-- Neither of two Pareto entries dominates the other (component-wise `<=`
in every objective, the §4.2 rule). -/
def NonDom (a b : Config × List Int) : Prop :=
  domLe a.2 b.2 = false ∧ domLe b.2 a.2 = false

/-- Example call sequence for the single-objective history. -/
def opsEx : List (Config × Int) := [(0, 5), (1, 3), (2, 3), (1, 9), (3, 7)]

/-- Single-objective saved history with one entry. -/
def histEx1 : HistoryState := run [(0, 5)]

/-- Multi-objective history after one `add` of the vector `[1, 2]`. -/
def moEx1 : MOState := moRun [(0, [1, 2])]

/-- Multi-objective history holding the antichain `[1,5]`, `[2,2]`. -/
def moEx2 : MOState := moRun [(0, [1, 5]), (1, [2, 2])]

/-- Multi-restart container as built by `__init__(0, num_objs=1)`. -/
def msFresh : MSState :=
  { task_id := 0, num_objs := 1, history_containers := [histInit] }

/-- Multi-restart container after `__init__(0, num_objs=1)` and one `add`. -/
def msEx1 : MSState :=
  msAdd msFresh 0 5

/-- Three restarts whose incumbent values are `[5, 3, 3]`, built through the
constructor, `restart` and `add` entry points. -/
def msEx3 : Except PyErr MSState := do
  let ms0 ← msInit 0 1
  let ms1 := msAdd ms0 0 5
  let ms2 ← msRestart ms1
  let ms3 := msAdd ms2 1 3
  let ms4 ← msRestart ms3
  pure (msAdd ms4 2 3)

/-- Invariant of a reachable single-objective history: the incumbents list
is exactly the stored entries whose performance equals `incumbent_value`,
`incumbent_value` is a lower bound on all stored performances, and the
incumbents list is empty exactly when the history is. -/
def histInv (s : HistoryState) : Prop :=
  s.incumbents = s.data.filter (fun e => e.2 = s.incumbent_value)
    ∧ (∀ e ∈ s.data, s.incumbent_value ≤ e.2)
    ∧ (s.data = [] ↔ s.incumbents = [])

lemma histInv_init : histInv histInit := by
  simp [histInv, histInit]

lemma add_dup (s : HistoryState) (c : Config) (p : Int)
    (h : hasConfig s.data c = true) : add s c p = s := by
  simp [add, h]

lemma add_first (s : HistoryState) (c : Config) (p : Int)
    (hdup : hasConfig s.data c = false) (hinc : s.incumbents = []) :
    add s c p = { data := s.data ++ [(c, p)],
                  config_counter := s.config_counter + 1,
                  incumbent_value := p, incumbents := [(c, p)] } := by
  simp [add, hdup, hinc]

lemma add_improve (s : HistoryState) (c : Config) (p : Int)
    (hdup : hasConfig s.data c = false) (hinc : s.incumbents ≠ [])
    (hlt : p < s.incumbent_value) :
    add s c p = { data := s.data ++ [(c, p)],
                  config_counter := s.config_counter + 1,
                  incumbent_value := p, incumbents := [(c, p)] } := by
  have hpos : 0 < s.incumbents.length := List.length_pos.mpr hinc
  simp [add, hdup, hpos, hlt, le_of_lt hlt]

lemma add_tie (s : HistoryState) (c : Config) (p : Int)
    (hdup : hasConfig s.data c = false) (hinc : s.incumbents ≠ [])
    (heq : p = s.incumbent_value) :
    add s c p = { data := s.data ++ [(c, p)],
                  config_counter := s.config_counter + 1,
                  incumbent_value := p,
                  incumbents := s.incumbents ++ [(c, p)] } := by
  have hpos : 0 < s.incumbents.length := List.length_pos.mpr hinc
  have h1 : ¬ p < s.incumbent_value := by omega
  have h2 : p ≤ s.incumbent_value := by omega
  simp [add, hdup, hpos, h1, h2]

lemma add_worse (s : HistoryState) (c : Config) (p : Int)
    (hdup : hasConfig s.data c = false) (hinc : s.incumbents ≠ [])
    (hgt : s.incumbent_value < p) :
    add s c p = { data := s.data ++ [(c, p)],
                  config_counter := s.config_counter + 1,
                  incumbent_value := s.incumbent_value,
                  incumbents := s.incumbents } := by
  have hpos : 0 < s.incumbents.length := List.length_pos.mpr hinc
  have h1 : ¬ p < s.incumbent_value := by omega
  have h2 : ¬ p ≤ s.incumbent_value := by omega
  simp [add, hdup, hpos, h1, h2]

lemma histInv_add (s : HistoryState) (c : Config) (p : Int) (h : histInv s) :
    histInv (add s c p) := by
  obtain ⟨hfil, hlb, hiff⟩ := h
  by_cases hdup : hasConfig s.data c
  · rw [add_dup s c p hdup]
    exact ⟨hfil, hlb, hiff⟩
  · rw [Bool.not_eq_true] at hdup
    by_cases hinc : s.incumbents = []
    · have hdata : s.data = [] := hiff.mpr hinc
      rw [add_first s c p hdup hinc]
      simp [histInv, hdata]
    · rcases lt_trichotomy p s.incumbent_value with hlt | heq | hgt
      · rw [add_improve s c p hdup hinc hlt]
        simp only [histInv]
        refine ⟨?_, ?_, by simp⟩
        · simp only [List.filter_append]
          have h1 : s.data.filter (fun e => decide (e.2 = p)) = [] := by
            rw [List.filter_eq_nil_iff]
            intro e he
            have := hlb e he
            simp only [decide_eq_true_eq]
            omega
          simp [h1]
        · intro e he
          simp only [List.mem_append, List.mem_singleton] at he
          rcases he with he | he
          · have := hlb e he; omega
          · simp [he]
      · rw [add_tie s c p hdup hinc heq]
        simp only [histInv]
        refine ⟨?_, ?_, by simp⟩
        · simp only [List.filter_append, heq]
          rw [← hfil]
          simp
        · intro e he
          simp only [List.mem_append, List.mem_singleton] at he
          rcases he with he | he
          · have := hlb e he; omega
          · simp [he]
      · rw [add_worse s c p hdup hinc hgt]
        have hdata : s.data ≠ [] := fun h0 => hinc (hiff.mp h0)
        simp only [histInv]
        refine ⟨?_, ?_, ?_⟩
        · simp only [List.filter_append]
          have h1 : List.filter (fun e => decide (e.2 = s.incumbent_value))
              [(c, p)] = [] := by
            have : ¬ p = s.incumbent_value := by omega
            simp [this]
          rw [h1, List.append_nil]
          exact hfil
        · intro e he
          simp only [List.mem_append, List.mem_singleton] at he
          rcases he with he | he
          · exact hlb e he
          · simp [he]; omega
        · constructor
          · intro h0
            exact absurd h0 (by simp)
          · intro h0
            exact absurd h0 hinc

lemma histInv_run (ops : List (Config × Int)) : histInv (run ops) := by
  have h : ∀ s, histInv s → histInv (ops.foldl (fun s op => add s op.1 op.2) s) := by
    induction ops with
    | nil => intro s hs; exact hs
    | cons op rest ih =>
      intro s hs
      exact ih _ (histInv_add s op.1 op.2 hs)
  exact h histInit histInv_init

/-- C1: after any sequence of `add` calls on a single-objective history,
`incumbent_value` is the minimum performance among the successfully inserted
(non-duplicate) entries — a lower bound that is attained whenever anything
was inserted — and the incumbents list holds exactly the inserted
configurations whose performance equals that minimum. -/
theorem c1_incumbents_track_minimum (ops : List (Config × Int)) :
    (run ops).incumbents
      = (run ops).data.filter (fun e => e.2 = (run ops).incumbent_value)
    ∧ (∀ e ∈ (run ops).data, (run ops).incumbent_value ≤ e.2)
    ∧ ((run ops).data ≠ [] →
        (run ops).incumbent_value ∈ (run ops).data.map Prod.snd) := by
  obtain ⟨hfil, hlb, hiff⟩ := histInv_run ops
  refine ⟨hfil, hlb, ?_⟩
  intro hne
  have hinc : (run ops).incumbents ≠ [] := fun h0 => hne (hiff.mpr h0)
  cases h : (run ops).incumbents with
  | nil => exact absurd h hinc
  | cons e l =>
    have he : e ∈ (run ops).incumbents := by rw [h]; exact List.mem_cons_self e l
    rw [hfil] at he
    rw [List.mem_filter] at he
    simp only [decide_eq_true_eq] at he
    rw [List.mem_map]
    exact ⟨e, he.1, he.2⟩

/-- Witness for C1 at the concrete call sequence `opsEx`, discharging the
nonemptiness hypothesis of the attainment conjunct. -/
theorem c1_witness :
    (run opsEx).incumbent_value ∈ (run opsEx).data.map Prod.snd :=
  (c1_incumbents_track_minimum opsEx).2.2 (by decide)

lemma paretoScan_false (perf : List Int) (l : List (Config × List Int))
    (hb : (paretoScan perf l).1 = false) :
    ∀ e ∈ l, domLe e.2 perf = false ∧
      (domLe perf e.2 = true → e.1 ∈ (paretoScan perf l).2) := by
  induction l with
  | nil => intro e he; simp at he
  | cons a rest ih =>
    intro e he
    by_cases h1 : domLe a.2 perf = true
    · simp [paretoScan, h1] at hb
    · have h1' : domLe a.2 perf = false := by
        cases h : domLe a.2 perf
        · rfl
        · exact absurd h h1
      by_cases h2 : domLe perf a.2 = true
      · have hscan : paretoScan perf (a :: rest)
            = ((paretoScan perf rest).1, a.1 :: (paretoScan perf rest).2) := by
          simp [paretoScan, h1', h2]
        rw [hscan] at hb ⊢
        rcases List.mem_cons.mp he with he | he
        · subst he
          exact ⟨h1', fun _ => List.mem_cons_self _ _⟩
        · have := ih (by simpa using hb) e he
          exact ⟨this.1, fun hd => List.mem_cons_of_mem _ (this.2 hd)⟩
      · have h2' : domLe perf a.2 = false := by
          cases h : domLe perf a.2
          · rfl
          · exact absurd h h2
        have hscan : paretoScan perf (a :: rest) = paretoScan perf rest := by
          simp [paretoScan, h1', h2']
        rw [hscan] at hb ⊢
        rcases List.mem_cons.mp he with he | he
        · subst he
          exact ⟨h1', fun hd => absurd hd (by simp [h2'])⟩
        · exact ih hb e he

lemma paretoUpdate_pairwise (pareto : List (Config × List Int)) (c : Config)
    (perf : List Int) (h : List.Pairwise NonDom pareto) :
    List.Pairwise NonDom (paretoUpdate pareto c perf) := by
  unfold paretoUpdate
  by_cases hb : (paretoScan perf pareto).1 = true
  · simp only [hb, if_true]
    exact h.filter _
  · have hb' : (paretoScan perf pareto).1 = false := by
      cases h : (paretoScan perf pareto).1
      · rfl
      · exact absurd h hb
    simp only [hb', Bool.false_eq_true, if_false]
    rw [List.filter_append]
    by_cases hc : (paretoScan perf pareto).2.contains c = true
    · have hc' : c ∈ (paretoScan perf pareto).2 := by simpa using hc
      have hnil : List.filter (fun e => ! (paretoScan perf pareto).2.contains e.1)
          [(c, perf)] = [] := by
        simp [hc']
      rw [hnil, List.append_nil]
      exact h.filter _
    · have hc' : c ∉ (paretoScan perf pareto).2 := by
        intro hm
        exact hc (by simpa using hm)
      have hone : List.filter (fun e => ! (paretoScan perf pareto).2.contains e.1)
          [(c, perf)] = [(c, perf)] := by
        simp [hc']
      rw [hone, List.pairwise_append]
      refine ⟨h.filter _, List.pairwise_singleton _ _, ?_⟩
      intro x hx y hy
      rw [List.mem_filter] at hx
      rw [List.mem_singleton] at hy
      subst hy
      have hscan := paretoScan_false perf pareto hb' x hx.1
      refine ⟨hscan.1, ?_⟩
      cases hcon : domLe perf x.2
      · rfl
      · exfalso
        have hmem := hscan.2 hcon
        have hx2 : x.1 ∉ (paretoScan perf pareto).2 := by
          have := hx.2
          rw [Bool.not_eq_true'] at this
          simpa using this
        exact hx2 hmem


lemma moAddCore_pareto (s1 : MOState) (c : Config) (perf : List Int) :
    (moAddCore s1 c perf).pareto = paretoUpdate s1.pareto c perf := by
  unfold moAddCore
  cases hr : s1.ref_point <;> simp [hr]

lemma moAddCore_data (s1 : MOState) (c : Config) (perf : List Int) :
    (moAddCore s1 c perf).data = s1.data ++ [(c, perf)] := by
  unfold moAddCore
  cases hr : s1.ref_point <;> simp [hr]

lemma moAdd_cases (s : MOState) (c : Config) (perf : List Int) :
    moAdd s c perf = .error .assertionError
    ∨ (∃ s', moAdd s c perf = .ok s' ∧ s'.pareto = s.pareto)
    ∨ (∃ s', moAdd s c perf = .ok s'
        ∧ s'.pareto = paretoUpdate s.pareto c perf) := by
  by_cases h0 : s.num_objs = none
  · by_cases h2 : hasConfig s.data c = true
    · refine Or.inr (Or.inl ⟨moFirstInit s perf, ?_, rfl⟩)
      simp [moAdd, moFirstInit, h0, h2]
    · rw [Bool.not_eq_true] at h2
      refine Or.inr (Or.inr ⟨moAddCore (moFirstInit s perf) c perf, ?_, ?_⟩)
      · simp [moAdd, moFirstInit, h0, h2]
      · rw [moAddCore_pareto]
        simp [moFirstInit]
  · by_cases h1 : s.num_objs = some perf.length
    · by_cases h2 : hasConfig s.data c = true
      · refine Or.inr (Or.inl ⟨s, ?_, rfl⟩)
        simp [moAdd, h0, h1, h2]
      · rw [Bool.not_eq_true] at h2
        refine Or.inr (Or.inr ⟨moAddCore s c perf, ?_, moAddCore_pareto s c perf⟩)
        simp [moAdd, h0, h1, h2]
    · have hne : s.num_objs ≠ some perf.length := h1
      exact Or.inl (by simp [moAdd, h0, hne])

lemma moStep_pareto (s : MOState) (op : Config × List Int) :
    (moStep s op).pareto = s.pareto
    ∨ (moStep s op).pareto = paretoUpdate s.pareto op.1 op.2 := by
  unfold moStep
  rcases moAdd_cases s op.1 op.2 with h | ⟨s', h, hp⟩ | ⟨s', h, hp⟩
  · rw [h]
    exact Or.inl rfl
  · rw [h]
    exact Or.inl hp
  · rw [h]
    exact Or.inr hp

/-- C2: at every point in any sequence of `add` calls on a multi-objective
history, the Pareto set is an antichain under the dominance order: no entry
component-wise dominates any other. -/
theorem c2_pareto_antichain (ops : List (Config × List Int)) :
    List.Pairwise NonDom (moRun ops).pareto := by
  have h : ∀ s : MOState, List.Pairwise NonDom s.pareto →
      List.Pairwise NonDom (ops.foldl moStep s).pareto := by
    induction ops with
    | nil => exact fun s hs => hs
    | cons op rest ih =>
      intro s hs
      apply ih
      rcases moStep_pareto s op with h | h
      · rw [h]; exact hs
      · rw [h]; exact paretoUpdate_pairwise _ _ _ hs
  exact h moInit (by simp [moInit])

instance : ∀ a b, Decidable (NonDom a b) := fun a b =>
  decidable_of_iff (domLe a.2 b.2 = false ∧ domLe b.2 a.2 = false) Iff.rfl

lemma domLe_trans (a : List Int) : ∀ b c : List Int, a.length = b.length →
    b.length = c.length → domLe a b = true → domLe b c = true →
    domLe a c = true := by
  induction a with
  | nil =>
    intro b c _ _ _ _
    cases c <;> simp [domLe]
  | cons x xs ih =>
    intro b c hab hbc h1 h2
    cases b with
    | nil => simp at hab
    | cons y ys =>
      cases c with
      | nil => simp at hbc
      | cons z zs =>
        simp only [domLe, Bool.and_eq_true, decide_eq_true_eq] at h1 h2 ⊢
        refine ⟨le_trans h1.1 h2.1, ?_⟩
        exact ih ys zs (by simpa using hab) (by simpa using hbc) h1.2 h2.2

lemma paretoScan_break_of_dom (perf : List Int) (l : List (Config × List Int))
    (hpw : List.Pairwise NonDom l)
    (hlen : ∀ e ∈ l, e.2.length = perf.length)
    (hdom : ∃ e ∈ l, domLe e.2 perf = true) :
    paretoScan perf l = (true, []) := by
  induction l with
  | nil =>
    obtain ⟨e, he, _⟩ := hdom
    simp at he
  | cons a rest ih =>
    by_cases h1 : domLe a.2 perf = true
    · simp [paretoScan, h1]
    · have h1' : domLe a.2 perf = false := by
        cases h : domLe a.2 perf
        · rfl
        · exact absurd h h1
      obtain ⟨e, he, hde⟩ := hdom
      rcases List.mem_cons.mp he with rfl | he
      · exact absurd hde h1
      by_cases h2 : domLe perf a.2 = true
      · exfalso
        have hea : domLe e.2 a.2 = true :=
          domLe_trans e.2 perf a.2 (hlen e (List.mem_cons_of_mem a he))
            ((hlen a (List.mem_cons_self a rest)).symm) hde h2
        have hnd : NonDom a e := (List.pairwise_cons.mp hpw).1 e he
        rw [hnd.2] at hea
        simp at hea
      · have h2' : domLe perf a.2 = false := by
          cases h : domLe perf a.2
          · rfl
          · exact absurd h h2
        have hscan : paretoScan perf (a :: rest) = paretoScan perf rest := by
          simp [paretoScan, h1', h2']
        rw [hscan]
        exact ih (List.pairwise_cons.mp hpw).2
          (fun e' he' => hlen e' (List.mem_cons_of_mem a he')) ⟨e, he, hde⟩

lemma moAdd_ok_insert (s : MOState) (c : Config) (perf : List Int)
    (hnum : s.num_objs = none ∨ s.num_objs = some perf.length)
    (hdup : hasConfig s.data c = false) :
    ∃ s', moAdd s c perf = .ok s'
      ∧ s'.pareto = paretoUpdate s.pareto c perf
      ∧ s'.data = s.data ++ [(c, perf)] := by
  rcases hnum with h0 | h0
  · refine ⟨moAddCore (moFirstInit s perf) c perf, ?_, ?_, ?_⟩
    · simp [moAdd, moFirstInit, h0, hdup]
    · rw [moAddCore_pareto]
      simp [moFirstInit]
    · rw [moAddCore_data]
      simp [moFirstInit]
  · refine ⟨moAddCore s c perf, ?_, ?_, ?_⟩
    · simp [moAdd, h0, hdup]
    · rw [moAddCore_pareto]
    · rw [moAddCore_data]

/-- C5: on a multi-objective history whose Pareto set is an antichain (with
vectors of the call's length), adding a non-duplicate configuration whose
vector is dominated by some existing Pareto member leaves the Pareto set
unchanged — nothing evicted, nothing inserted — while the point still lands
in the full history. -/
theorem c5_dominated_insert_keeps_pareto (s : MOState) (c : Config)
    (perf : List Int)
    (hpw : List.Pairwise NonDom s.pareto)
    (hlen : ∀ e ∈ s.pareto, (e.2 : List Int).length = perf.length)
    (hnum : s.num_objs = none ∨ s.num_objs = some perf.length)
    (hdup : hasConfig s.data c = false)
    (hdom : ∃ e ∈ s.pareto, domLe e.2 perf = true) :
    ∃ s', moAdd s c perf = .ok s' ∧ s'.pareto = s.pareto
      ∧ s'.data = s.data ++ [(c, perf)] := by
  obtain ⟨s', hok, hp, hd⟩ := moAdd_ok_insert s c perf hnum hdup
  have hscan := paretoScan_break_of_dom perf s.pareto hpw hlen hdom
  have hupd : paretoUpdate s.pareto c perf = s.pareto := by
    unfold paretoUpdate
    rw [hscan]
    simp
  exact ⟨s', hok, by rw [hp, hupd], hd⟩

/-- Witness for C5: inserting `[3, 3]` (dominated by the Pareto member
`[2, 2]`) into the history holding the antichain `[1,5]`, `[2,2]`. -/
theorem c5_witness :
    ∃ s', moAdd moEx2 2 [3, 3] = .ok s' ∧ s'.pareto = moEx2.pareto
      ∧ s'.data = moEx2.data ++ [(2, [3, 3])] :=
  c5_dominated_insert_keeps_pareto moEx2 2 [3, 3] (by decide) (by decide)
    (by decide) (by decide) (by decide)

/-- C6: re-adding an already-present configuration is a no-op on every
observable state component, for both the single-objective and the
multi-objective container (the latter under the claim's assumption that the
re-added vector has the fixed objective count), and it never raises. -/
theorem c6_duplicate_add_is_noop :
    (∀ (s : HistoryState) (c : Config) (p : Int),
        hasConfig s.data c = true → add s c p = s)
    ∧ (∀ (s : MOState) (c : Config) (perf : List Int),
        s.num_objs = some perf.length → hasConfig s.data c = true →
        moAdd s c perf = .ok s) := by
  constructor
  · intro s c p h
    exact add_dup s c p h
  · intro s c perf hn h
    have h0 : ¬ s.num_objs = none := by rw [hn]; simp
    simp [moAdd, h0, hn, h]

/-- Witness for C6 at concrete one-entry histories. -/
theorem c6_witness :
    add histEx1 0 9 = histEx1 ∧ moAdd moEx1 0 [9, 9] = .ok moEx1 :=
  ⟨c6_duplicate_add_is_noop.1 histEx1 0 9 (by decide),
   c6_duplicate_add_is_noop.2 moEx1 0 [9, 9] (by decide) (by decide)⟩

/-- C10: once `num_objs` is fixed, calling `add` with an already-present
configuration but a vector of a different length raises the objective-count
`AssertionError` instead of taking the duplicate warn-and-skip path: the
length assertion runs before the duplicate check. -/
theorem c10_length_assert_precedes_duplicate_check
    (s : MOState) (c : Config) (perf : List Int) (n : Nat)
    (hn : s.num_objs = some n) (hlen : perf.length ≠ n)
    (_hdup : hasConfig s.data c = true) :
    moAdd s c perf = .error .assertionError := by
  have h0 : ¬ s.num_objs = none := by rw [hn]; simp
  have hne : s.num_objs ≠ some perf.length := by
    rw [hn]
    intro h
    exact hlen (Option.some.inj h).symm
  simp [moAdd, h0, hne]

/-- Witness for C10: the history fixed `num_objs = 2` and already contains
configuration `0`; re-adding it with the 3-vector `[1, 2, 3]` raises. -/
theorem c10_witness :
    moAdd moEx1 0 [1, 2, 3] = .error .assertionError :=
  c10_length_assert_precedes_duplicate_check moEx1 0 [1, 2, 3] 2
    (by decide) (by decide) (by decide)

/-- C3 (code bug): after the very first `add` of `[1, 2]`, the objective-0
incumbent list should hold the entry `(0, 1, [1, 2])` — configuration `0`
achieves the minimum `1` on objective 0, and `mo_incumbent_value` records
exactly that minimum — but because `[list()] * num_objs` makes every
per-objective list the SAME object, the objective-1 iteration clears and
overwrites it, and both observed lists end up `[(0, 2, [1, 2])]`. -/
theorem c3_per_objective_incumbents_aliased :
    get_mo_incumbents (moRun [(0, [1, 2])])
      = [[(0, 2, [1, 2])], [(0, 2, [1, 2])]]
    ∧ (moRun [(0, [1, 2])]).mo_incumbent_value = [1, 2] := by
  constructor
  · decide
  · decide

/-- C4 (code bug): with restarts whose incumbent values are `[5, 3, 3]`,
the aggregation returns the incumbents of all three restarts — including
`(0, 5)` from the strictly worse first restart — because `best_incumbents`
is never cleared when a strictly better value is encountered; the claim
requires `[(1, 3), (2, 3)]`. -/
theorem c4_aggregation_keeps_worse_restart :
    msEx3.map (fun ms => ms.history_containers.map
        (fun hc => hc.incumbent_value)) = .ok [5, 3, 3]
    ∧ msEx3.bind get_incumbents_for_all_restarts
        = .ok [(0, 5), (1, 3), (2, 3)] := by
  refine ⟨rfl, rfl⟩

/-- C7 (code bug): saving a one-entry history and loading the file into a
fresh history returns the saved pairs as a separate mapping but leaves the
fresh history's own data empty — `load_history_from_json` never re-inserts
through `add` (despite the source's own comment that using `add` is
important), so the pairs are not reproduced *in* the fresh history.  The
missing/corrupt-file path does leave the history unchanged. -/
theorem c7_load_does_not_populate_history :
    histEx1.data = [(0, 5)]
    ∧ (load_history_from_json histInit (some (save_json histEx1))).1.data = []
    ∧ (load_history_from_json histInit (some (save_json histEx1))).2
        = some [(0, 5)]
    ∧ load_history_from_json histEx1 none = (histEx1, none) := by
  refine ⟨by decide, by decide, by decide, rfl⟩

/-- C8 (code bug): constructing a multi-restart container with more than
one objective — and hence any multi-objective `restart()` — raises
`NameError`, because `restart` evaluates the unbound name `ref_point`
(`__init__` never stores its `ref_point` parameter); the single-objective
branch does append a fresh empty inner history as claimed. -/
theorem c8_multiobjective_restart_raises :
    msInit 0 2 = .error .nameError
    ∧ msInit 0 1 = .ok msFresh
    ∧ ((msInit 0 1).bind msRestart).map
        (fun ms => ms.history_containers) = .ok [histInit, histInit] := by
  refine ⟨rfl, rfl, rfl⟩

/-- C9 (code bug): on a multi-restart container holding configuration `0`
in an inner history, `get_perf(0)` raises `AttributeError` — the loop body
reads `self.data`, an attribute `MultiStartHistoryContainer` does not have —
instead of returning the stored performance `5`; only the absent-key path
raises the claimed `KeyError`. -/
theorem c9_multistart_get_perf_attribute_error :
    msInit 0 1 = .ok msFresh
    ∧ hasConfig (msEx1.history_containers.headD histInit).data 0 = true
    ∧ msGetPerf msEx1 0 = .error .attrError
    ∧ msGetPerf msEx1 99 = .error .keyError := by
  refine ⟨rfl, by decide, rfl, rfl⟩
